import Mathlib

/-!
Verification of the cell-addressing algebra, cast/action engine, row
assembler and command executor of the spsbot repository, against its
natural-language specification.

The Python sources are embedded shallowly: pure functions become Lean
functions, loops become structural recursions (with an explicit fuel
argument mirroring the loop bound where needed so that every definition
computes by kernel reduction), exceptions and `sys.exit` become `Except`,
and Python's arbitrary-precision integers become `Nat`/`Int`.
-/

namespace Spsbot

/-! ### Column-name arithmetic (`src/spsbot/structs.py`)

`get_columnindex(columnname)` translates each character `x` into
`1 + ord(x.upper()) - ord('A')`, evaluates the sequence in base 26 with
positional weights `26^(len - index - 1)`, and subtracts one.
-/

/-- Value of one character of a column name, as in `get_columnindex`:
`1 + ord(x.upper()) - ord('A')`. -/
def colval (c : Char) : Int := 1 + (c.toUpper.toNat : Int) - 65

/-- The summation loop of `get_columnindex`: `icolumn * 26^(len-index-1)`
summed over all characters, expressed by structural recursion (the head
character has weight `26^rest.length`). -/
def get_columnindex_aux : List Char → Int
  | [] => 0
  | c :: rest => colval c * (26 : Int) ^ rest.length + get_columnindex_aux rest

/-- `get_columnindex` of `src/spsbot/structs.py` (zero-based column index),
with the float accumulator (`result += icolumn * math.pow(26, ...)`)
idealized as EXACT integer arithmetic.  In CPython the accumulator is a
double, so this definition agrees with the source exactly when every
partial sum is representable in 53 bits — in particular whenever the
result is below `2^53`.  The float-faithful model is
`get_columnindex_float` below; the two diverge first at the name of index
`2^53`. -/
def get_columnindex (s : String) : Int := get_columnindex_aux s.data - 1

/-- The digit-emitting loop of `get_columnname`, for positions `pos ≥ 1`.

In the source, the loop state after processing position `p` is the residual
`columnindex - Σ_{q ≤ p} digit_q * 26^q` where
`digit_p = (columnindex % 26^(p+1)) // 26^p`; by induction the residual
equals `26^(p+1) * (columnindex / 26^(p+1))` and `digit_p = (i / 26^p) % 26`,
and the loop exits at the first `p` with `i / 26^(p+1) = 0`.  Hence the
characters emitted at positions `p ≥ 1`, rendered as `chr(ord('A')+digit-1)`,
are exactly the base-26 digits of `q = i / 26` — emitted here most
significant first, with an explicit fuel argument (`q/26 < q` bounds the
recursion depth by `q`) so the definition reduces in the kernel. -/
def get_columnname_hi_fuel : Nat → Nat → List Char
  | 0, _ => []
  | fuel + 1, q =>
    if q = 0 then []
    else get_columnname_hi_fuel fuel (q / 26) ++ [Char.ofNat (64 + q % 26)]

/-- High-position characters of `get_columnname` for the quotient `q = i / 26`. -/
def get_columnname_hi (q : Nat) : List Char := get_columnname_hi_fuel q q

/-- `get_columnname` of `src/spsbot/structs.py`: the position-0 digit `i % 26`
is rendered as `chr(ord('A') + digit)` and the higher positions as
`chr(ord('A') + digit - 1)` (see `get_columnname_hi_fuel` for the loop
invariant identifying those digits).

The source's `math.pow`/float division/modulus are modeled as exact
integer arithmetic.  This is faithful for every `i < 26^14`: every float
value arising in the digit loop at that magnitude is an integer whose
2-adic valuation (`26^p` is divisible by `2^p`) meets its ulp, so all the
operations are exact in CPython.  That range covers every index this
development evaluates, including `2^53 ≈ 26^11.4`. -/
def get_columnname (i : Nat) : String :=
  ⟨get_columnname_hi (i / 26) ++ [Char.ofNat (65 + i % 26)]⟩

/-! #### The float-faithful model of `get_columnindex`

`get_columnindex` accumulates `result` as a CPython double.  Every float
arising there is integer-valued (integer character values times integer
powers), so the accumulator is modeled exactly by natural numbers rounded
to 53 significant bits after each operation (IEEE-754 round to nearest,
ties to even).  Overflow of doubles happens only beyond `2^1024`, far
outside the values involved. -/

/-- `floor (log2 n)` by structural recursion with explicit fuel. -/
def floorLog2Aux : Nat → Nat → Nat
  | 0, _ => 0
  | fuel + 1, n => if n ≤ 1 then 0 else floorLog2Aux fuel (n / 2) + 1

/-- `floor (log2 n)` (fuel `n` always suffices). -/
def floorLog2 (n : Nat) : Nat := floorLog2Aux n n

/-- Round a nonnegative integer to the nearest IEEE-754 double: keep 53
significant bits, rounding to nearest with ties to even.  Values below
`2^53` are exact. -/
def fl53 (n : Nat) : Nat :=
  if n < 2 ^ 53 then n
  else
    let k := floorLog2 n - 52
    let ulp := 2 ^ k
    let q := n / ulp
    let r := n % ulp
    if 2 * r < ulp then q * ulp
    else if 2 * r > ulp then (q + 1) * ulp
    else if q % 2 = 0 then q * ulp else (q + 1) * ulp

/-- `math.pow(26, p)`: the correctly rounded double of `26^p` (exact for
all `p ≤ 14`, in particular wherever it is used below). -/
def pyfloat_pow26 (p : Nat) : Nat := fl53 (26 ^ p)

/-- The character value of `get_columnindex` over `Nat` (the characters
of column names have codes `≥ 64`, where this agrees with `colval`). -/
def colvalN (c : Char) : Nat := 1 + c.toUpper.toNat - 65

/-- The accumulation loop of `get_columnindex` with the source's FLOAT
semantics: the power, the product `icolumn * math.pow(26, ...)` and the
running sum `result += ...` are each rounded by `fl53`. -/
def get_columnindex_float_aux : List Char → Nat → Nat
  | [], acc => acc
  | c :: rest, acc =>
    get_columnindex_float_aux rest
      (fl53 (acc + fl53 (colvalN c * pyfloat_pow26 rest.length)))

/-- `get_columnindex` of `src/spsbot/structs.py` with the float
accumulator modeled faithfully (compare `get_columnindex`, which
idealizes it as exact). -/
def get_columnindex_float (s : String) : Int :=
  (get_columnindex_float_aux s.data 0 : Int) - 1

/-- The exact (infinite-precision) value of the same sum, over `Nat`. -/
def natSum26 : List Char → Nat
  | [] => 0
  | c :: rest => colvalN c * 26 ^ rest.length + natSum26 rest

theorem get_columnname_hi_fuel_eq :
    ∀ q f : Nat, q ≤ f → get_columnname_hi_fuel f q = get_columnname_hi q := by
  intro q
  induction q using Nat.strong_induction_on with
  | _ q ih =>
    intro f hf
    rcases q with _ | q
    · rcases f with _ | f
      · rfl
      · rfl
    · rcases f with _ | f
      · exact absurd hf (by omega)
      · have hq : (q + 1) / 26 < q + 1 := Nat.div_lt_self (Nat.succ_pos q) (by omega)
        show get_columnname_hi_fuel (f + 1) (q + 1) = get_columnname_hi_fuel (q + 1) (q + 1)
        simp only [get_columnname_hi_fuel, if_neg (Nat.succ_ne_zero q)]
        rw [ih _ hq _ (by omega), ih _ hq _ (by omega)]

theorem get_columnname_hi_eq (q : Nat) :
    get_columnname_hi q =
      if q = 0 then []
      else get_columnname_hi (q / 26) ++ [Char.ofNat (64 + q % 26)] := by
  rcases Nat.eq_zero_or_pos q with h | h
  · subst h; rfl
  · obtain ⟨k, rfl⟩ : ∃ k, q = k + 1 := ⟨q - 1, by omega⟩
    have hq : (k + 1) / 26 < k + 1 := Nat.div_lt_self (Nat.succ_pos k) (by omega)
    show get_columnname_hi_fuel (k + 1) (k + 1) = _
    simp only [get_columnname_hi_fuel, if_neg (Nat.succ_ne_zero k)]
    rw [get_columnname_hi_fuel_eq _ _ (by omega)]

theorem get_columnindex_aux_append (xs ys : List Char) :
    get_columnindex_aux (xs ++ ys) =
      get_columnindex_aux xs * (26 : Int) ^ ys.length + get_columnindex_aux ys := by
  induction xs with
  | nil => simp [get_columnindex_aux]
  | cons c rest ih =>
    simp only [List.cons_append, get_columnindex_aux, List.append_eq, ih,
      List.length_append]
    ring

theorem colval_hi_digit (d : Nat) (h : d < 26) :
    colval (Char.ofNat (64 + d)) = (d : Int) := by
  interval_cases d <;> decide

theorem colval_low_digit (d : Nat) (h : d < 26) :
    colval (Char.ofNat (65 + d)) = (d : Int) + 1 := by
  interval_cases d <;> decide

theorem get_columnindex_aux_hi (q : Nat) :
    get_columnindex_aux (get_columnname_hi q) = (q : Int) := by
  induction q using Nat.strong_induction_on with
  | _ q ih =>
    rcases Nat.eq_zero_or_pos q with h | h
    · subst h; simp [get_columnname_hi_eq, get_columnindex_aux]
    · rw [get_columnname_hi_eq, if_neg (by omega)]
      rw [get_columnindex_aux_append]
      have hlt : q / 26 < q := Nat.div_lt_self h (by omega)
      rw [ih _ hlt]
      simp only [get_columnindex_aux, List.length_nil, pow_zero,
        List.length_cons, pow_one]
      rw [colval_hi_digit (q % 26) (Nat.mod_lt _ (by omega))]
      have := Nat.div_add_mod q 26
      push_cast
      omega

/-- The round trip under EXACT (infinite-precision) arithmetic: the digit
loop of `get_columnname` emits the base-26 digits of `i` and the sum of
`get_columnindex` reconstructs them.  In the source the accumulator is a
float, so this ideal identity holds in CPython only while every partial
sum fits in 53 bits; see `get_columnindex_float_columnname_roundtrip` for
the faithful bounded statement and the counterexample at `2^53`. -/
theorem get_columnindex_columnname_roundtrip_ideal (i : Nat) :
    get_columnindex (get_columnname i) = (i : Int) := by
  show get_columnindex_aux (get_columnname_hi (i / 26) ++ [Char.ofNat (65 + i % 26)]) - 1 = _
  rw [get_columnindex_aux_append, get_columnindex_aux_hi]
  simp only [get_columnindex_aux, List.length_nil, pow_zero, List.length_cons, pow_one]
  rw [colval_low_digit (i % 26) (Nat.mod_lt _ (by omega))]
  have := Nat.div_add_mod i 26
  push_cast
  omega

theorem fl53_of_le (n : Nat) (h : n ≤ 2 ^ 53) : fl53 n = n := by
  rcases Nat.lt_or_ge n (2 ^ 53) with hlt | hge
  · unfold fl53
    rw [if_pos hlt]
  · have heq : n = 2 ^ 53 := by omega
    subst heq
    decide

theorem natSum26_append (xs ys : List Char) :
    natSum26 (xs ++ ys) = natSum26 xs * 26 ^ ys.length + natSum26 ys := by
  induction xs with
  | nil => simp [natSum26]
  | cons c rest ih =>
    simp only [List.cons_append, natSum26, List.append_eq, ih, List.length_append]
    ring

theorem colvalN_hi_digit (d : Nat) (h : d < 26) :
    colvalN (Char.ofNat (64 + d)) = d := by
  interval_cases d <;> decide

theorem colvalN_low_digit (d : Nat) (h : d < 26) :
    colvalN (Char.ofNat (65 + d)) = d + 1 := by
  interval_cases d <;> decide

theorem natSum26_hi (q : Nat) : natSum26 (get_columnname_hi q) = q := by
  induction q using Nat.strong_induction_on with
  | _ q ih =>
    rcases Nat.eq_zero_or_pos q with h | h
    · subst h
      simp [get_columnname_hi_eq, natSum26]
    · rw [get_columnname_hi_eq, if_neg (by omega), natSum26_append]
      have hlt : q / 26 < q := Nat.div_lt_self h (by omega)
      rw [ih _ hlt]
      simp only [natSum26, List.length_nil, pow_zero, List.length_cons, pow_one,
        mul_one, add_zero]
      rw [colvalN_hi_digit (q % 26) (Nat.mod_lt _ (by omega))]
      have := Nat.div_add_mod q 26
      omega

theorem natSum26_columnname (i : Nat) :
    natSum26 (get_columnname i).data = i + 1 := by
  show natSum26 (get_columnname_hi (i / 26) ++ [Char.ofNat (65 + i % 26)]) = i + 1
  rw [natSum26_append, natSum26_hi]
  simp only [natSum26, List.length_nil, pow_zero, List.length_cons, pow_one,
    mul_one, add_zero]
  rw [colvalN_low_digit (i % 26) (Nat.mod_lt _ (by omega))]
  have := Nat.div_add_mod i 26
  omega

theorem get_columnname_hi_length_le :
    ∀ (k q : Nat), q < 26 ^ k → (get_columnname_hi q).length ≤ k := by
  intro k
  induction k with
  | zero =>
    intro q h
    have : q = 0 := by simpa using h
    subst this
    simp [get_columnname_hi_eq]
  | succ k ih =>
    intro q h
    rw [get_columnname_hi_eq]
    by_cases h0 : q = 0
    · simp [h0]
    · rw [if_neg h0]
      simp only [List.length_append, List.length_cons, List.length_nil]
      have hq : q / 26 < 26 ^ k :=
        Nat.div_lt_of_lt_mul (by rw [← pow_succ']; exact h)
      have := ih _ hq
      omega

theorem get_columnname_length_le (i : Nat) (h : i < 26 ^ 12) :
    (get_columnname i).data.length ≤ 12 := by
  show (get_columnname_hi (i / 26) ++ [Char.ofNat (65 + i % 26)]).length ≤ 12
  simp only [List.length_append, List.length_cons, List.length_nil]
  have h11 : i / 26 < 26 ^ 11 :=
    Nat.div_lt_of_lt_mul (by rw [← pow_succ']; exact h)
  have := get_columnname_hi_length_le 11 _ h11
  omega

theorem get_columnindex_float_aux_exact :
    ∀ (l : List Char) (acc : Nat), l.length ≤ 12 → acc + natSum26 l ≤ 2 ^ 53 →
      get_columnindex_float_aux l acc = acc + natSum26 l := by
  intro l
  induction l with
  | nil =>
    intro acc _ _
    simp [get_columnindex_float_aux, natSum26]
  | cons c rest ih =>
    intro acc hlen hbound
    have hrl : rest.length ≤ 11 := by
      simp only [List.length_cons] at hlen
      omega
    have hpow : pyfloat_pow26 rest.length = 26 ^ rest.length := by
      unfold pyfloat_pow26
      apply fl53_of_le
      calc (26 : Nat) ^ rest.length ≤ 26 ^ 11 :=
            Nat.pow_le_pow_right (by norm_num) hrl
        _ ≤ 2 ^ 53 := by norm_num
    have hsum_cons : natSum26 (c :: rest) =
        colvalN c * 26 ^ rest.length + natSum26 rest := rfl
    have hterm : colvalN c * 26 ^ rest.length ≤ 2 ^ 53 := by
      rw [hsum_cons] at hbound
      omega
    have hacc : acc + colvalN c * 26 ^ rest.length ≤ 2 ^ 53 := by
      rw [hsum_cons] at hbound
      omega
    rw [show get_columnindex_float_aux (c :: rest) acc =
        get_columnindex_float_aux rest
          (fl53 (acc + fl53 (colvalN c * pyfloat_pow26 rest.length))) from rfl]
    rw [hpow, fl53_of_le _ hterm, fl53_of_le _ hacc]
    rw [ih _ (by omega) (by rw [hsum_cons] at hbound; omega)]
    rw [hsum_cons]
    omega

/-- C1, counterexample.  At `i = 2^53` the round trip fails in the source:
`get_columnname` computes the exact 12-character name (all float
operations in its digit loop are exact at this magnitude), but the float
accumulator of `get_columnindex` must hold the exact sum `2^53 + 1`,
which is not representable and rounds to `2^53` (ties to even), so the
function returns `2^53 - 1 ≠ 2^53`.  The exact-arithmetic model
`get_columnindex` returns `2^53` on the same name, pinpointing the float
rounding as the sole source of the failure. -/
theorem get_columnindex_float_columnname_2_pow_53_fails :
    get_columnname (2 ^ 53) = "BKTXHSOGHKKG" ∧
    get_columnindex_float "BKTXHSOGHKKG" = (2 : Int) ^ 53 - 1 ∧
    get_columnindex_float "BKTXHSOGHKKG" ≠ (2 : Int) ^ 53 ∧
    get_columnindex "BKTXHSOGHKKG" = (2 : Int) ^ 53 := by
  exact ⟨by decide, by decide, by decide, by decide⟩

/-- C1, amended.  Column-name/index round trip below `2^53`: for every
`0 ≤ i < 2^53` — the full range in which every partial sum of the float
accumulator of `get_columnindex` is exactly representable as a double —
the source's float arithmetic is exact and
`get_columnindex (get_columnname i) = i`.  At `i = 2^53` the round trip
fails (see the counterexample). -/
theorem get_columnindex_float_columnname_roundtrip (i : Nat) (h : i < 2 ^ 53) :
    get_columnindex_float (get_columnname i) = (i : Int) := by
  have hlen : (get_columnname i).data.length ≤ 12 :=
    get_columnname_length_le i (by
      calc i < 2 ^ 53 := h
        _ ≤ 26 ^ 12 := by norm_num)
  have hsum := natSum26_columnname i
  unfold get_columnindex_float
  rw [get_columnindex_float_aux_exact _ 0 hlen (by rw [hsum]; omega)]
  rw [hsum]
  push_cast
  omega

/-- C1, witness: the bounded round trip instantiated at 676. -/
theorem get_columnindex_float_columnname_roundtrip_witness :
    (676 : Nat) < 2 ^ 53 ∧
    get_columnindex_float (get_columnname 676) = (676 : Int) :=
  ⟨by norm_num, get_columnindex_float_columnname_roundtrip 676 (by norm_num)⟩

/-- C3.  Code bug witness: `get_columnname 676` evaluates to `"A@A"`, which
contains the character `'@'` — not a letter in `A..Z` (the bijective base-26
name of index 676 would be `"ZA"`, whose index indeed is 676). -/
theorem get_columnname_676_not_alpha :
    get_columnname 676 = "A@A" ∧
      ¬ (∀ c ∈ (get_columnname 676).data, 'A' ≤ c ∧ c ≤ 'Z') ∧
      get_columnindex "ZA" = 676 := by
  refine ⟨by decide, ?_, by decide⟩
  intro h
  have := h '@' (by decide)
  exact absurd this.1 (by decide)

/-! ### Cell-name parsing and `Range` (`src/spsbot/structs.py`)

`get_columnrow` matches a cell name against `(?P<column>[a-zA-Z]+)(?P<row>\d+)`:
a nonempty run of ASCII letters, then a nonempty run of ASCII digits
(anything after the match is ignored, as with `re.match`).
-/

/-- Decimal value of a digit run, as `int()` computes it. -/
def digitsToNat (l : List Char) : Nat := l.foldl (fun n c => n * 10 + (c.toNat - 48)) 0

/-- `get_columnrow` of `src/spsbot/structs.py`; `none` models the
`ValueError` raised when the regular expression does not match. -/
def get_columnrow (s : String) : Option (String × Nat) :=
  let letters := s.data.takeWhile (fun c => c.isAlpha)
  let digits := (s.data.drop letters.length).takeWhile (fun c => c.isDigit)
  if letters = [] ∨ digits = [] then none
  else some (⟨letters⟩, digitsToNat digits)

/-- Python's `<` on strings: lexicographic comparison of code points, a
proper prefix being smaller.  `Range.__init__` applies this to COLUMN NAME
STRINGS (`self._startcolumn < self._endcolumn`). -/
def pyStrLt : List Char → List Char → Bool
  | [], [] => false
  | [], _ :: _ => true
  | _ :: _, [] => false
  | a :: as, b :: bs => if a < b then true else if b < a then false else pyStrLt as bs

/-- The normalized state of a `Range` after `__init__`: the (possibly
swapped) `_start`/`_end` strings and their re-parsed column/row parts. -/
structure PyRange where
  start : String
  stop : String
  startcolumn : String
  startrow : Nat
  endcolumn : String
  endrow : Nat
  deriving DecidableEq, Repr

/-- `Range.__init__` of `src/spsbot/structs.py`.  The four normalization
cases compare the rows numerically but the columns AS STRINGS with
Python's `<` (`pyStrLt`); the swapped corners are rebuilt by string
concatenation `column + str(row)`. -/
def Range_init (c1 c2 : String) : Option PyRange := do
  let (sc, sr) ← get_columnrow c1
  let (ec, er) ← get_columnrow c2
  let (s, e) :=
    if sr < er then
      if pyStrLt sc.data ec.data then (c1, c2)              -- case 1: NW/SE already
      else (ec ++ toString sr, sc ++ toString er)           -- case 2: NE/SW
    else
      if pyStrLt sc.data ec.data then (sc ++ toString er, ec ++ toString sr) -- case 3: SW/NE
      else (c2, c1)                                         -- case 4: SE/NW
  let (sc2, sr2) ← get_columnrow s
  let (ec2, er2) ← get_columnrow e
  pure ⟨s, e, sc2, sr2, ec2, er2⟩

/-- `get_cellname` of `src/spsbot/structs.py` (for the nonnegative indices
produced during range iteration, where `int(index / nbrows)` is floor
division). -/
def get_cellname (index startrow nbrows : Nat) : String :=
  get_columnname (index / nbrows) ++ toString (startrow + index % nbrows)

/-- `get_index(self._start, ...)` as computed in `Range.__init__`:
column index times the number of rows, plus the row distance to the
start row. -/
def range_current (r : PyRange) : Int :=
  get_columnindex r.startcolumn * (1 + (r.endrow : Int) - r.startrow)

/-- `get_index(self._end, ...)` as computed in `Range.__init__`. -/
def range_enditer (r : PyRange) : Int :=
  get_columnindex r.endcolumn * (1 + (r.endrow : Int) - r.startrow) +
    ((r.endrow : Int) - r.startrow)

/-- The sequence of cell names produced by the `Range` iterator
(`__next__` yields `get_cellname(_current, _startrow, 1+_endrow-_startrow)`
while `_current ≤ _enditer`, incrementing `_current`). -/
def range_cells (r : PyRange) : List String :=
  let nbr := 1 + r.endrow - r.startrow
  let cur := range_current r
  (List.range (1 + range_enditer r - cur).toNat).map
    (fun k => get_cellname (cur + k).toNat r.startrow nbr)

/-! ### `DynamicArray` (`src/spsstructs.py`)

A sparse 2-D array: a list of rows, each a list of cells; missing cells
hold Python `None`, modeled as `Option.none`.  `__setitem__` grows the
array as needed; `__getitem__` raises `IndexError` (here: `none`) outside
the current extent.  Rows are 1-based, columns 0-based, exactly as the
source converts cell names via `get_columnrow`/`get_columnindex`.
-/

/-- The column part of `DynamicArray.__setitem__`: either assign in place
or first extend the row with `[None]*(1+column-len(row))` — after which the
source's recursive retry is guaranteed to take the in-place branch, which
is inlined here. -/
def dyn_set_in_row {α : Type} (rl : List (Option α)) (col : Nat) (v : α) : List (Option α) :=
  if col < rl.length then rl.set col (some v)
  else (rl ++ List.replicate (1 + col - rl.length) none).set col (some v)

/-- `DynamicArray.__setitem__` for a (0-based) column and (1-based) row.
When the row is beyond the current extent the source appends
`row - len(self._data)` fresh empty rows and retries; the retry then
satisfies `row <= len(self._data)` and is inlined here. -/
def dynarray_setitem {α : Type} (data : List (List (Option α))) (col row : Nat) (v : α) :
    List (List (Option α)) :=
  if row ≤ data.length then
    data.set (row - 1) (dyn_set_in_row (data.getD (row - 1) []) col v)
  else
    let data2 := data ++ List.replicate (row - data.length) []
    data2.set (row - 1) (dyn_set_in_row (data2.getD (row - 1) []) col v)

/-- `DynamicArray.__getitem__`; `none` models the `IndexError` raised when
the position lies outside the current extent. -/
def dynarray_getitem {α : Type} (data : List (List (Option α))) (col row : Nat) :
    Option (Option α) :=
  if row ≤ data.length then
    let rl := data.getD (row - 1) []
    if col < rl.length then some (rl.getD col none) else none
  else none

/-- Write keyed by a cell NAME, as `data[cell] = value` does: the name is
split by `get_columnrow` and the column translated by `get_columnindex`
(nonnegative for letter-only columns).  An unparsable name leaves the
array unchanged (unreachable for names produced by `range_cells`). -/
def dynarray_setname {α : Type} (data : List (List (Option α))) (cell : String) (v : α) :
    List (List (Option α)) :=
  match get_columnrow cell with
  | none => data
  | some (c, row) => dynarray_setitem data (get_columnindex c).toNat row v

/-- Read keyed by a cell name, as `data[cell]` does. -/
def dynarray_getname {α : Type} (data : List (List (Option α))) (cell : String) :
    Option (Option α) :=
  match get_columnrow cell with
  | none => none
  | some (c, row) => dynarray_getitem data (get_columnindex c).toNat row

/-! ### `SPSLiteral.execute` (`src/spsstructs.py`)

A literal resolves its range and writes its content into every cell the
range iterator yields.  For content of type `text` whose string contains
no dollar sign, the two substitution passes (`evaluate`, then
`substitute`) leave the value unchanged (both only rewrite matches of
patterns introduced by a dollar sign), and the formula-dragging branch is
not taken; the embedding below covers exactly that case.  The `direction`
argument is stored by `SPSLiteral.__init__` and never read by `execute`
("Even if a direction is given, it is ignored for literals"). -/

/-- The value/type pair of an `SPSCellContent` (attributes omitted; they
are copied through unchanged). -/
structure SPSCellContent where
  data : String
  ctype : String
  deriving DecidableEq, Repr

/-- The list of cells `SPSLiteral.execute` writes to: the iteration order
of `structs.Range([start, end])`.  `none` models the `ValueError` raised
on an unparsable corner name. -/
def sps_literal_execute_writes (c1 c2 : String) : Option (List String) :=
  (Range_init c1 c2).map range_cells

/-- `SPSLiteral.execute` (dollar-free `text` content): write the content
into every cell of the range, in iteration order, into the dynamic array.
The `direction` parameter is ignored, as in the source. -/
def sps_literal_execute (arr : List (List (Option SPSCellContent)))
    (c1 c2 : String) (direction : Option String) (content : SPSCellContent) :
    Option (List (List (Option SPSCellContent))) :=
  (Range_init c1 c2).map
    (fun r => (range_cells r).foldl (fun a cell => dynarray_setname a cell content) arr)

/-! ### Bounding-box corners and the midpoint computation (`src/spsstructs.py`) -/

/-- `sys.maxsize` on a 64-bit CPython. -/
def pymaxsize : Nat := 2 ^ 63 - 1

/-- The four corner indices maintained by the execution loop of
`SPSLiteral.execute`/`SPSQuery.execute`: initialized to
`(left, top) = (maxsize, maxsize)` and `(bottom, right) = (0, 0)`. -/
structure BBox where
  left : Nat
  top : Nat
  bottom : Nat
  right : Nat
  deriving DecidableEq, Repr

/-- One bounding-box update: `left/right` from the cell's column index,
`top/bottom` from its row. -/
def bbox_step (b : BBox) (cell : String) : BBox :=
  match get_columnrow cell with
  | none => b
  | some (c, row) =>
    let ci := (get_columnindex c).toNat
    ⟨min ci b.left, min row b.top, max row b.bottom, max ci b.right⟩

/-- The bounding box actually touched by a command, as folded over the
cells it visits. -/
def literal_bbox (cells : List String) : BBox :=
  cells.foldl bbox_step ⟨pymaxsize, pymaxsize, 0, 0⟩

/-! ### The `get_columnname` loop on a float argument (`src/spsstructs.py`)

`SPSLiteral.execute` registers the `north`/`south` context variables with
`get_columnname((left + right) / 2)`.  Under Python 3, `/` on integers is
TRUE division, so the argument is a float — `0.5` when `left + right` is
odd.  The values arising on that trajectory (`0.5`, and the results of
`%`, `-` by integers) are exact in binary floating point, so `ℚ` embeds
the loop faithfully; `int()` truncation on the nonnegative quantities
involved is the floor.  A step transforms the loop state
`(columnindex, pos)`; the loop exits only when `columnindex == 0` holds
after a step. -/

/-- Python's `%` for positive float operands: `a - b * floor(a / b)`. -/
def pyfmod (a b : Rat) : Rat := a - b * ⌊a / b⌋

/-- `digit = int((columnindex % int(math.pow(base, 1 + pos))) / math.pow(base, pos))`. -/
def cn_digit (c : Rat) (pos : Nat) : Int :=
  ⌊pyfmod c ((26 : Rat) ^ (pos + 1)) / (26 : Rat) ^ pos⌋

/-- One iteration of the `get_columnname` while-loop on float state:
subtract `digit * 26^pos` and advance to the next position (the character
bookkeeping does not influence the exit test and is omitted). -/
def cn_step (s : Rat × Nat) : Rat × Nat :=
  (s.1 - cn_digit s.1 s.2 * (26 : Rat) ^ s.2, s.2 + 1)

/-! ### Theorems about `Range` normalization, literal execution and `DynamicArray` -/

/-- C2.  Code bug witness: `Range(["B1", "AA2"])` is NOT normalized to
NW/SE corners.  Because `Range.__init__` compares the column names as
strings (`"B" < "AA"` is false lexicographically, although column `B` has
index 1 and `AA` index 26), the constructor swaps the columns and stores
`start = "AA1"`, `end = "B2"`, violating `start.column ≤ end.column` by
numeric column index — and the iterator consequently yields no cells at
all for this legitimate rectangle. -/
theorem Range_init_B1_AA2_not_normalized :
    Range_init "B1" "AA2" = some ⟨"AA1", "B2", "AA", 1, "B", 2⟩ ∧
    get_columnindex "AA" = 26 ∧ get_columnindex "B" = 1 ∧
    ¬ (get_columnindex "AA" ≤ get_columnindex "B") ∧
    (Range_init "B1" "AA2").map range_cells = some [] := by
  exact ⟨by decide, by decide, by decide, by decide, by decide⟩

/-- C6, counterexample.  The literal `$A1: $A3 right "x"` does NOT write
to A1, B1, C1: the direction is ignored for literals and the range
`A1:A3` iterates over A1, A2, A3. -/
theorem literal_A1_A3_right_cells_counterexample :
    sps_literal_execute_writes "A1" "A3" = some ["A1", "A2", "A3"] ∧
    sps_literal_execute_writes "A1" "A3" ≠ some ["A1", "B1", "C1"] ∧
    "B1" ∉ ["A1", "A2", "A3"] := by
  exact ⟨by decide, by decide, by decide⟩

/-- C6, amended.  Executing the sheet-spec literal `$A1: $A3 right "x"`
on an empty dynamic array writes the string "x" into exactly the three
cells A1, A2 and A3 (the range's cells in iteration order; the `right`
direction modifier is ignored for literals): reading those three cells
back yields the content, while B1 and C1 were never written. -/
theorem literal_A1_A3_right_writes_A1_A2_A3 :
    sps_literal_execute [[]] "A1" "A3" (some "right") ⟨"x", "text"⟩ =
      some [[some ⟨"x", "text"⟩], [some ⟨"x", "text"⟩], [some ⟨"x", "text"⟩]] ∧
    dynarray_getname [[some (⟨"x", "text"⟩ : SPSCellContent)],
        [some ⟨"x", "text"⟩], [some ⟨"x", "text"⟩]] "A1" = some (some ⟨"x", "text"⟩) ∧
    dynarray_getname [[some (⟨"x", "text"⟩ : SPSCellContent)],
        [some ⟨"x", "text"⟩], [some ⟨"x", "text"⟩]] "A2" = some (some ⟨"x", "text"⟩) ∧
    dynarray_getname [[some (⟨"x", "text"⟩ : SPSCellContent)],
        [some ⟨"x", "text"⟩], [some ⟨"x", "text"⟩]] "A3" = some (some ⟨"x", "text"⟩) ∧
    dynarray_getname [[some (⟨"x", "text"⟩ : SPSCellContent)],
        [some ⟨"x", "text"⟩], [some ⟨"x", "text"⟩]] "B1" = none ∧
    dynarray_getname [[some (⟨"x", "text"⟩ : SPSCellContent)],
        [some ⟨"x", "text"⟩], [some ⟨"x", "text"⟩]] "C1" = none := by
  exact ⟨by decide, by decide, by decide, by decide, by decide, by decide⟩

theorem cn_digit_eq_zero (q : Rat) (h0 : 0 ≤ q) (h1 : q < 1) (pos : Nat) :
    cn_digit q pos = 0 := by
  have hpow : (0 : Rat) < (26 : Rat) ^ (pos + 1) := by positivity
  have hpow0 : (0 : Rat) < (26 : Rat) ^ pos := by positivity
  have h26 : (1 : Rat) ≤ (26 : Rat) ^ (pos + 1) := one_le_pow₀ (by norm_num)
  have h26' : (1 : Rat) ≤ (26 : Rat) ^ pos := one_le_pow₀ (by norm_num)
  have hfl : ⌊q / (26 : Rat) ^ (pos + 1)⌋ = 0 := by
    rw [Int.floor_eq_zero_iff]
    refine Set.mem_Ico.mpr ⟨by positivity, ?_⟩
    rw [div_lt_one hpow]
    linarith
  have hmod : pyfmod q ((26 : Rat) ^ (pos + 1)) = q := by
    simp [pyfmod, hfl]
  unfold cn_digit
  rw [hmod, Int.floor_eq_zero_iff]
  refine Set.mem_Ico.mpr ⟨by positivity, ?_⟩
  rw [div_lt_one hpow0]
  linarith

theorem cn_step_iterate_half (n : Nat) :
    (cn_step^[n]) ((1 : Rat) / 2, 0) = ((1 : Rat) / 2, n) := by
  induction n with
  | zero => rfl
  | succ n ih =>
    rw [Function.iterate_succ_apply', ih]
    have hd : cn_digit ((1 : Rat) / 2) n = 0 :=
      cn_digit_eq_zero _ (by norm_num) (by norm_num) n
    simp only [cn_step, hd]
    norm_num

/-- C7.  Code bug witness: a named literal over the range `A1:B1` touches
exactly the cells A1 and B1, so its bounding box has `left = 0` and
`right = 1`; `SPSLiteral.execute` then computes the `north` midpoint
column as `get_columnname((left + right) / 2)` where `/` is Python-3 TRUE
division, passing the float `0.5` — and on that argument the
`get_columnname` digit loop never satisfies its exit test
`columnindex == 0` (the digit is 0 at every position and the residue
stays `0.5` forever), so the registration of the eight context variables
does not terminate.  (`SPSQuery.execute` instead floors the average via
`math.floor`.) -/
theorem literal_A1_B1_north_loop_diverges :
    sps_literal_execute_writes "A1" "B1" = some ["A1", "B1"] ∧
    literal_bbox ["A1", "B1"] = ⟨0, 1, 1, 1⟩ ∧
    ((0 : Rat) + 1) / 2 = 1 / 2 ∧
    ∀ n : Nat, ((cn_step^[n]) ((1 : Rat) / 2, 0)).1 ≠ 0 := by
  refine ⟨by decide, by decide, by norm_num, ?_⟩
  intro n
  rw [cn_step_iterate_half]
  norm_num

theorem dyn_set_in_row_length {α : Type} (rl : List (Option α)) (col : Nat) (v : α) :
    (dyn_set_in_row rl col v).length = max rl.length (col + 1) := by
  unfold dyn_set_in_row
  by_cases h : col < rl.length
  · rw [if_pos h]
    simp
    omega
  · rw [if_neg h]
    simp
    omega

theorem dyn_set_in_row_getD_self {α : Type} (rl : List (Option α)) (col : Nat) (v : α) :
    (dyn_set_in_row rl col v).getD col none = some v := by
  unfold dyn_set_in_row
  by_cases h : col < rl.length
  · rw [if_pos h]
    rw [List.getD_eq_getElem?_getD, List.getElem?_set_self (by simpa using h)]
    rfl
  · rw [if_neg h]
    rw [List.getD_eq_getElem?_getD, List.getElem?_set_self (by simp; omega)]
    rfl

theorem dyn_set_in_row_getD_ne {α : Type} (rl : List (Option α)) (col : Nat) (v : α)
    (col' : Nat) (hne : col' ≠ col) (hlt : col' < rl.length) :
    (dyn_set_in_row rl col v).getD col' none = rl.getD col' none := by
  unfold dyn_set_in_row
  by_cases h : col < rl.length
  · rw [if_pos h]
    rw [List.getD_eq_getElem?_getD, List.getElem?_set_ne (by omega),
      ← List.getD_eq_getElem?_getD]
  · rw [if_neg h]
    rw [List.getD_eq_getElem?_getD, List.getElem?_set_ne (by omega),
      List.getElem?_append_left hlt, ← List.getD_eq_getElem?_getD]

/-- C10.  `DynamicArray` read-after-write: after `data[c] = v` the lookup
`data[c]` returns `v` (the array grows as needed, so the write succeeds
for every valid cell position, i.e. every 1-based row), and every other
previously readable cell keeps its stored value. -/
theorem dynarray_read_after_write {α : Type} (data : List (List (Option α)))
    (col row : Nat) (v : α) (hrow : 1 ≤ row) :
    dynarray_getitem (dynarray_setitem data col row v) col row = some (some v) ∧
    (∀ col' row' (w : Option α), 1 ≤ row' → (col', row') ≠ (col, row) →
      dynarray_getitem data col' row' = some w →
      dynarray_getitem (dynarray_setitem data col row v) col' row' = some w) := by
  by_cases hle : row ≤ data.length
  case pos =>
    have hset : dynarray_setitem data col row v =
        data.set (row - 1) (dyn_set_in_row (data.getD (row - 1) []) col v) := by
      unfold dynarray_setitem
      rw [if_pos hle]
    constructor
    · rw [hset]
      unfold dynarray_getitem
      rw [if_pos (by simpa using hle)]
      have hgd : (data.set (row - 1)
            (dyn_set_in_row (data.getD (row - 1) []) col v)).getD (row - 1) [] =
          dyn_set_in_row (data.getD (row - 1) []) col v := by
        rw [List.getD_eq_getElem?_getD, List.getElem?_set_self (by omega)]
        rfl
      rw [hgd]
      rw [if_pos (by rw [dyn_set_in_row_length]; omega)]
      rw [dyn_set_in_row_getD_self]
    · intro col' row' w hrow' hne hprev
      unfold dynarray_getitem at hprev
      by_cases hle' : row' ≤ data.length
      swap
      · rw [if_neg hle'] at hprev
        exact absurd hprev (by simp)
      rw [if_pos hle'] at hprev
      simp only at hprev
      by_cases hcl : col' < (data.getD (row' - 1) []).length
      swap
      · rw [if_neg hcl] at hprev
        exact absurd hprev (by simp)
      rw [if_pos hcl] at hprev
      rw [hset]
      unfold dynarray_getitem
      rw [if_pos (by simpa using hle')]
      by_cases hrr : row' = row
      · subst hrr
        have hcc : col' ≠ col := by
          intro h
          exact hne (by simp [h])
        have hgd : (data.set (row' - 1)
              (dyn_set_in_row (data.getD (row' - 1) []) col v)).getD (row' - 1) [] =
            dyn_set_in_row (data.getD (row' - 1) []) col v := by
          rw [List.getD_eq_getElem?_getD, List.getElem?_set_self (by omega)]
          rfl
        rw [hgd]
        rw [if_pos (by rw [dyn_set_in_row_length]; omega)]
        rw [dyn_set_in_row_getD_ne _ _ _ _ hcc hcl]
        exact hprev
      · have hgd : (data.set (row - 1)
              (dyn_set_in_row (data.getD (row - 1) []) col v)).getD (row' - 1) [] =
            data.getD (row' - 1) [] := by
          rw [List.getD_eq_getElem?_getD, List.getElem?_set_ne (by omega),
            ← List.getD_eq_getElem?_getD]
        rw [hgd, if_pos hcl]
        exact hprev
  case neg =>
    have hlen2 : (data ++ List.replicate (row - data.length) ([] : List (Option α))).length
        = row := by
      simp
      omega
    have hgd2 : (data ++ List.replicate (row - data.length) ([] : List (Option α))).getD
        (row - 1) [] = [] := by
      rw [List.getD_eq_getElem?_getD, List.getElem?_append_right (by omega)]
      rw [List.getElem?_replicate, if_pos (by omega)]
      rfl
    have hset : dynarray_setitem data col row v =
        (data ++ List.replicate (row - data.length) []).set (row - 1)
          (dyn_set_in_row ([] : List (Option α)) col v) := by
      unfold dynarray_setitem
      rw [if_neg hle]
      simp only
      rw [hgd2]
    constructor
    · rw [hset]
      unfold dynarray_getitem
      rw [if_pos (by simp [hlen2])]
      have hgd : ((data ++ List.replicate (row - data.length) []).set (row - 1)
            (dyn_set_in_row ([] : List (Option α)) col v)).getD (row - 1) [] =
          dyn_set_in_row ([] : List (Option α)) col v := by
        rw [List.getD_eq_getElem?_getD, List.getElem?_set_self (by rw [hlen2]; omega)]
        rfl
      rw [hgd]
      rw [if_pos (by rw [dyn_set_in_row_length]; simp)]
      rw [dyn_set_in_row_getD_self]
    · intro col' row' w hrow' hne hprev
      unfold dynarray_getitem at hprev
      by_cases hle' : row' ≤ data.length
      swap
      · rw [if_neg hle'] at hprev
        exact absurd hprev (by simp)
      rw [if_pos hle'] at hprev
      simp only at hprev
      by_cases hcl : col' < (data.getD (row' - 1) []).length
      swap
      · rw [if_neg hcl] at hprev
        exact absurd hprev (by simp)
      rw [if_pos hcl] at hprev
      rw [hset]
      unfold dynarray_getitem
      rw [if_pos (by rw [List.length_set, hlen2]; omega)]
      have hgd : ((data ++ List.replicate (row - data.length) []).set (row - 1)
            (dyn_set_in_row ([] : List (Option α)) col v)).getD (row' - 1) [] =
          data.getD (row' - 1) [] := by
        rw [List.getD_eq_getElem?_getD, List.getElem?_set_ne (by omega),
          List.getElem?_append_left (by omega), ← List.getD_eq_getElem?_getD]
      rw [hgd, if_pos hcl]
      exact hprev

/-- C10, witness. -/
theorem dynarray_read_after_write_witness :
    dynarray_getitem (dynarray_setitem ([[]] : List (List (Option Nat))) 1 2 7) 1 2 =
      some (some 7) :=
  (dynarray_read_after_write [[]] 1 2 7 (by decide)).1

/-! ### Values and casts (`src/spsbot/dbstructs.py`)

Python values flowing through the cast/action engine: integers, floats
(modeled exactly as rationals), and strings.  Python's `None` is modeled
as `Option.none` one level up. -/

/-- A Python scalar as handled by `DBAction.handle_action`. -/
inductive PyVal where
  | vint (n : Int)
  | vfloat (q : Rat)
  | vstr (s : String)
  deriving DecidableEq, Repr

/-- Strip leading and trailing whitespace from a character list, as
Python's `int()`/`float()` do before parsing. -/
def pyStrip (l : List Char) : List Char :=
  ((l.dropWhile (fun c => c.isWhitespace)).reverse.dropWhile
    (fun c => c.isWhitespace)).reverse

/-- Python's `int(string)`: optional surrounding whitespace, an optional
sign, then a nonempty digit run (underscore separators are not used by
this code base and are omitted). `none` models the raised `ValueError`. -/
def pyParseInt (s : String) : Option Int :=
  match pyStrip s.data with
  | [] => none
  | c :: rest =>
    let (sign, digits) : Int × List Char :=
      if c = '-' then (-1, rest) else if c = '+' then (1, rest) else (1, c :: rest)
    if digits = [] ∨ ¬ digits.all (fun d => d.isDigit) then none
    else some (sign * (digitsToNat digits : Int))

/-- Python's `float(string)` for the plain forms `[sign]digits[.digits]`
and `[sign].digits` (exponent notation is not used by the specification
files handled here and is omitted).  `none` models the `ValueError`. -/
def pyParseFloat (s : String) : Option Rat :=
  let core : List Char → Option Rat := fun chars =>
    let ip := chars.takeWhile (fun d => d.isDigit)
    let rest := chars.drop ip.length
    match rest with
    | [] => if ip = [] then none else some ((digitsToNat ip : Int) : Rat)
    | '.' :: fp =>
      if ¬ fp.all (fun d => d.isDigit) then none
      else if ip = [] ∧ fp = [] then none
      else some (((digitsToNat ip * 10 ^ fp.length + digitsToNat fp : Int) : Rat) /
        ((10 : Rat) ^ fp.length))
    | _ => none
  match pyStrip s.data with
  | [] => none
  | c :: rest =>
    if c = '-' then (core rest).map (fun q => -q)
    else if c = '+' then core rest
    else core (c :: rest)

/-- Python's `int(x)` on a scalar: identity on ints, truncation toward
zero on floats, string parsing on strings. -/
def pyIntCast : PyVal → Option Int
  | .vint n => some n
  | .vfloat q => some (if q < 0 then ⌈q⌉ else ⌊q⌋)
  | .vstr s => pyParseInt s

/-- Python's `float(x)` on a scalar. -/
def pyFloatCast : PyVal → Option Rat
  | .vint n => some n
  | .vfloat q => some q
  | .vstr s => pyParseFloat s

/-- Python's `str(x)` on a scalar (never fails; the rendering of floats is
abstracted by the `Rat` printer and is not relied upon by any claim). -/
def pyStr : PyVal → String
  | .vint n => toString n
  | .vfloat q => toString q
  | .vstr s => s

/-- The text of `ERROR_CAST_COLUMN` (only its identity matters here). -/
def error_cast_column (name ctype : String) : String :=
  " Fatal error - it was not possible to cast the default value of column " ++
    name ++ " to the type " ++ ctype

/-- The warning decoration `WARNING.format(message)` applied by
`LOGGER.warning`. -/
def warning_msg (m : String) : String := " Warning - " ++ m

/-- The `try` block of `DBAction.handle_action` casting the (non-`None`)
default value to the column type.  An unknown type raises `TypeError`
inside the `try`, which the bare `except` catches and re-raises as the
cast error, so both failure paths produce the cast error. -/
def cast_default (d : PyVal) (name ctype : String) : Except String PyVal :=
  if ctype = "integer" then
    match pyIntCast d with
    | some n => .ok (.vint n)
    | none => .error (error_cast_column name ctype)
  else if ctype = "real" then
    match pyFloatCast d with
    | some q => .ok (.vfloat q)
    | none => .error (error_cast_column name ctype)
  else if ctype = "text" ∨ ctype = "datetime" ∨ ctype = "date" then
    .ok (.vstr (pyStr d))
  else
    .error (error_cast_column name ctype)

/-- `DBAction.handle_action` of `src/spsbot/dbstructs.py`.  `action` is the
string `"Error"`, `"Warning"` or `"None"`; `dflt` is the action's default
value (`none` = Python `None`).  The result carries the returned value and
the warning messages logged; `Except.error` models the raised exception
(`RuntimeError` for the Error action, `TypeError` for a failed default
cast).  The source assigns `data = self._default` in the Warning branch
and then unconditionally again (a dead first assignment); both reduce to
using the default, as here. -/
def handle_action (action : String) (dflt : Option PyVal) (name ctype message : String) :
    Except String (Option PyVal × List String) :=
  if action = "Error" then .error message
  else
    let logs := if action = "Warning" then [warning_msg message] else []
    match dflt with
    | none => .ok (none, logs)
    | some d =>
      match cast_default d name ctype with
      | .ok v => .ok (some v, logs)
      | .error e => .error e

/-! ### `DBColumn.extend` (`src/spsbot/dbstructs.py`) -/

/-- The diagnostic printed by `LOGGER.error` before `sys.exit(0)` in
`DBColumn.extend` (only its identity matters here). -/
def error_extent_msg : String :=
  " Fatal error - the length of a column is not the expected one"

/-- `DBColumn.extend`: a single-item column is replicated (`self._data *=
length`) to the requested length; any other length mismatch logs the
diagnostic and terminates via `sys.exit(0)` — modeled as `Except.error`
carrying the message and the PROCESS EXIT STATUS, which is `0`. -/
def dbcolumn_extend {α : Type} (data : List α) (length : Nat) :
    Except (String × Nat) (List α) :=
  if data.length = 1 then .ok (List.flatten (List.replicate length data))
  else if data.length ≠ length then .error (error_extent_msg, 0)
  else .ok data

/-! ### Row acceptance in `DBBlock.lookup` (`src/spsbot/dbstructs.py`)

After all columns are aligned, `lookup` builds one tuple per row index,
skips rows containing `None`, counts occurrences of each distinct row in
the `unique` defaultdict, logs a duplicate warning when it repeats and
`check_duplicates` is set, skips the repeat when `enforce_unique` is set,
and otherwise appends the row and counts it. -/

/-- `None in row` for a resolved row (entries are `Option` values,
`none` = Python `None`). -/
def rowHasNone {α : Type} [DecidableEq α] (row : List (Option α)) : Bool :=
  row.contains none

/-- The loop state of the row-building part of `DBBlock.lookup`: the
occurrence bookkeeping (`unique`, represented by the list of none-free
rows registered so far — the dict value for `row` is its count in
`seen`), the accepted-row counter `nbrows`, the accepted rows `data`, and
the duplicate-warning log. -/
structure LookupState (α : Type) where
  seen : List (List (Option α))
  nbrows : Nat
  data : List (List (Option α))
  warns : List (List (Option α))
  deriving DecidableEq, Repr

/-- One iteration of the row loop of `DBBlock.lookup`. -/
def lookup_step {α : Type} [DecidableEq α] (cd eu : Bool) (st : LookupState α)
    (row : List (Option α)) : LookupState α :=
  if rowHasNone row then st
  else
    let seen2 := st.seen ++ [row]
    if seen2.count row > 1 then
      let warns2 := if cd then st.warns ++ [row] else st.warns
      if eu then ⟨seen2, st.nbrows, st.data, warns2⟩
      else ⟨seen2, st.nbrows + 1, st.data ++ [row], warns2⟩
    else ⟨seen2, st.nbrows + 1, st.data ++ [row], st.warns⟩

/-- The row-acceptance loop of `DBBlock.lookup` over the aligned rows,
with `cd` = `'check_duplicates' in context` and `eu` =
`'enforce_unique' in context`. -/
def dbblock_lookup_rows {α : Type} [DecidableEq α] (cd eu : Bool)
    (rows : List (List (Option α))) : LookupState α :=
  rows.foldl (lookup_step cd eu) ⟨[], 0, [], []⟩

/-- The none-free rows, in order (the rows that pass `None not in row`). -/
def noneFree {α : Type} [DecidableEq α] (rows : List (List (Option α))) :
    List (List (Option α)) :=
  rows.filter (fun r => ! rowHasNone r)

/-- One step of first-occurrence deduplication. -/
def dedupStep {β : Type} [DecidableEq β] (acc : List β) (r : β) : List β :=
  if r ∈ acc then acc else acc ++ [r]

/-- Deduplication keeping FIRST occurrences (the claim-shaped description
of what `enforce_unique` retains). -/
def firstDedup {β : Type} [DecidableEq β] (l : List β) : List β :=
  l.foldl dedupStep []

/-! ### Content-bounded cell resolution (`src/spsbot/dbstructs.py`)

`DBCellReference._traverse_cells` resolves a descriptor against a sheet:
explicit descriptors return immediately; `COL[content]` starts at the
descriptor's column and the base row (or row 1), advancing one row at a
time; `[content]ROW` starts at the base column (or column A) and the
descriptor's row, advancing one column at a time; each visited cell's
`str()` value is compared with the content, and exceeding the sheet's
bounds raises `IndexError`.  Columns are 0-based (legal range
`[0, ncols)`, the source check is `index >= column_range().stop`), rows
are 1-based (legal range `[1, nrows]`, the check is `row > row_range().stop`). -/

/-- The grid accessor: declared bounds and the textual value of each cell
(`str(sheet[cell])`), as a function of 0-based column and 1-based row. -/
structure Sheet where
  ncols : Nat
  nrows : Nat
  val : Nat → Nat → String

/-- A cell descriptor after the regular-expression dispatch of
`_traverse_cells`: explicit `<column><row>`, `<column>[content]`, or
`[content]<row>` (the dot forms are rewritten away by `_do_range` before
this function runs and are not part of this claim). -/
inductive DBDescriptor where
  | explicitCell (col row : Nat)
  | colContent (col : Nat) (content : String)
  | contentRow (content : String) (row : Nat)
  deriving DecidableEq, Repr

/-- A `DBCellReference`: descriptor plus column/row offsets. -/
structure DBCellRef where
  descriptor : DBDescriptor
  coloffset : Int
  rowoffset : Int
  deriving DecidableEq, Repr

def error_column_index_msg : String := " Fatal error - column out of range"
def error_row_index_msg : String := " Fatal error - row out of range"

/-- The row-advancing scan loop of `_traverse_cells` (fixed column,
`delta = (0, 1)`): compare the current cell, then advance one row and
re-check the bounds, raising `IndexError` past the last row.  The fuel
argument equals the number of rows left to visit (`nrows + 1 - row`),
which bounds the loop exactly; the zero-fuel case is unreachable when the
scan starts within bounds. -/
def scanRowFuel (g : Sheet) (col : Nat) (content : String) :
    Nat → Nat → Except String (Nat × Nat)
  | 0, _ => .error error_row_index_msg
  | fuel + 1, row =>
    if g.val col row = content then .ok (col, row)
    else if col ≥ g.ncols then .error error_column_index_msg
    else if row + 1 > g.nrows then .error error_row_index_msg
    else scanRowFuel g col content fuel (row + 1)

/-- The column-advancing scan loop of `_traverse_cells` (fixed row,
`delta = (1, 0)`). -/
def scanColFuel (g : Sheet) (row : Nat) (content : String) :
    Nat → Nat → Except String (Nat × Nat)
  | 0, _ => .error error_column_index_msg
  | fuel + 1, col =>
    if g.val col row = content then .ok (col, row)
    else if col + 1 ≥ g.ncols then .error error_column_index_msg
    else scanColFuel g row content fuel (col + 1)

/-- The starting row taken from the base (`get_columnrow(base)[1]`), or 1
when no base is given (`column, row = 'A', 1`). -/
def baseRow (base : Option (Nat × Nat)) : Nat :=
  match base with | some (_, br) => br | none => 1

/-- The starting column index taken from the base, or column `A` (index 0)
when no base is given. -/
def baseCol (base : Option (Nat × Nat)) : Nat :=
  match base with | some (bc, _) => bc | none => 0

/-- `DBCellReference._traverse_cells`: the base (if any) provides the
starting row for a `COL[content]` descriptor and the starting column for
a `[content]ROW` descriptor; without a base the scan starts at `(A, 1)`.
The initial bound checks precede the loop, as in the source. -/
def dbcell_traverse (g : Sheet) (d : DBDescriptor) (base : Option (Nat × Nat)) :
    Except String (Nat × Nat) :=
  match d with
  | .explicitCell c r => .ok (c, r)
  | .colContent col content =>
    if col ≥ g.ncols then .error error_column_index_msg
    else if baseRow base > g.nrows then .error error_row_index_msg
    else scanRowFuel g col content (g.nrows + 1 - baseRow base) (baseRow base)
  | .contentRow content row =>
    if baseCol base ≥ g.ncols then .error error_column_index_msg
    else if row > g.nrows then .error error_row_index_msg
    else scanColFuel g row content (g.ncols - baseCol base) (baseCol base)

/-- `structs.add_columns` on a resolved cell: fails when the shifted
column index would be negative. -/
def py_add_columns (cell : Nat × Nat) (v : Int) : Except String (Nat × Nat) :=
  if (cell.1 : Int) + v < 0 then .error " add_columns goes beyond the left margin"
  else .ok (((cell.1 : Int) + v).toNat, cell.2)

/-- `structs.add_rows` on a resolved cell: fails when the shifted row
would drop below row 1. -/
def py_add_rows (cell : Nat × Nat) (v : Int) : Except String (Nat × Nat) :=
  if (cell.2 : Int) + v < 1 then .error " add_rows goes above the first row"
  else .ok (cell.1, ((cell.2 : Int) + v).toNat)

/-- `DBCellReference.execute`: resolve the descriptor (phase 1), then
apply the column and row offsets (phase 2), in the source's order
`add_rows(add_columns(traverse(...), coloffset), rowoffset)`. -/
def dbcell_execute (g : Sheet) (ref : DBCellRef) (base : Option (Nat × Nat)) :
    Except String (Nat × Nat) := do
  let cell ← dbcell_traverse g ref.descriptor base
  let cell2 ← py_add_columns cell ref.coloffset
  py_add_rows cell2 ref.rowoffset

/-- `DBRange.get_range`: the start is resolved without a base; the end is
resolved with the start's RESOLVED address as base.  (The source then
wraps the two cells in `structs.Range([start, end])`; the pair returned
here is exactly what that constructor receives.) -/
def dbrange_get_range (g : Sheet) (s e : DBCellRef) :
    Except String ((Nat × Nat) × (Nat × Nat)) := do
  let st ← dbcell_execute g s none
  let en ← dbcell_execute g e (some st)
  pure (st, en)

/-- The first row in `[r0, nrows]` whose cell in `col` matches the
content (claim-shaped description of the row scan). -/
def findRowSpec (g : Sheet) (col : Nat) (content : String) (r0 : Nat) : Option Nat :=
  (List.range' r0 (g.nrows + 1 - r0)).find? (fun r => g.val col r = content)

/-- The first column in `[c0, ncols)` whose cell in `row` matches the
content (claim-shaped description of the column scan). -/
def findColSpec (g : Sheet) (row : Nat) (content : String) (c0 : Nat) : Option Nat :=
  (List.range' c0 (g.ncols - c0)).find? (fun c => g.val c row = content)

/-! ### Theorems about the cast/action engine and column extension -/

/-- C4.  `handle_action` with action `Error` always raises (returns
nothing); with `Warning` it logs one warning and returns the action's
default; with `None` it returns the default silently; in the latter two
cases a non-`None` default is itself cast to the column's declared type
and a failure of that cast raises fatally regardless of the configured
action. -/
theorem handle_action_spec :
    (∀ dflt name ctype message,
      handle_action "Error" dflt name ctype message = .error message) ∧
    (∀ action name ctype message, action = "Warning" ∨ action = "None" →
      handle_action action none name ctype message =
        .ok (none, if action = "Warning" then [warning_msg message] else [])) ∧
    (∀ action d v name ctype message, action = "Warning" ∨ action = "None" →
      cast_default d name ctype = .ok v →
      handle_action action (some d) name ctype message =
        .ok (some v, if action = "Warning" then [warning_msg message] else [])) ∧
    (∀ action d e name ctype message, action = "Warning" ∨ action = "None" →
      cast_default d name ctype = .error e →
      handle_action action (some d) name ctype message = .error e) := by
  refine ⟨?_, ?_, ?_, ?_⟩
  · intro dflt name ctype message
    rfl
  · intro action name ctype message h
    rcases h with h | h <;> subst h <;> simp [handle_action]
  · intro action d v name ctype message h hc
    rcases h with h | h <;> subst h <;> simp [handle_action, hc]
  · intro action d e name ctype message h hc
    rcases h with h | h <;> subst h <;> simp [handle_action, hc]

/-- C4, witness: an empty integer cell under `Warning` with default `"3"`
produces the cast default `3` and one logged warning. -/
theorem handle_action_spec_witness :
    cast_default (.vstr "3") "c" "integer" = .ok (.vint 3) ∧
    handle_action "Warning" (some (.vstr "3")) "c" "integer" "m" =
      .ok (some (.vint 3), [warning_msg "m"]) := by
  constructor
  · rfl
  · have h := handle_action_spec.2.2.1 "Warning" (.vstr "3") (.vint 3) "c" "integer" "m"
      (Or.inl rfl) (by rfl)
    simpa using h

/-- C9, counterexample: a column of length 2 asked to extend to length 3
logs the diagnostic and terminates via `sys.exit(0)` — PROCESS EXIT
STATUS 0, not the non-zero status the claim requires. -/
theorem dbcolumn_extend_mismatch_exits_zero :
    dbcolumn_extend (["a", "b"] : List String) 3 = .error (error_extent_msg, 0) := by
  rfl

/-- C9, amended.  After resolving every column, a column of length 1 is
broadcast (replicated) to the longest column's length; any other length
mismatch prints a diagnostic and terminates the run — via `sys.exit(0)`,
i.e. with exit status 0 (the code base never exits with a non-zero
status). -/
theorem dbcolumn_extend_spec {α : Type} (data : List α) (len : Nat) :
    (data.length = 1 →
      dbcolumn_extend data len = .ok (List.flatten (List.replicate len data)) ∧
      (List.flatten (List.replicate len data)).length = len) ∧
    (data.length ≠ 1 → data.length = len → dbcolumn_extend data len = .ok data) ∧
    (data.length ≠ 1 → data.length ≠ len →
      dbcolumn_extend data len = .error (error_extent_msg, 0)) := by
  refine ⟨?_, ?_, ?_⟩
  · intro h1
    constructor
    · unfold dbcolumn_extend
      rw [if_pos h1]
    · simp [h1]
  · intro h1 h2
    unfold dbcolumn_extend
    rw [if_neg h1, if_neg (by omega)]
  · intro h1 h2
    unfold dbcolumn_extend
    rw [if_neg h1, if_pos h2]

/-- C9, witness: a length-1 column is broadcast to three items. -/
theorem dbcolumn_extend_spec_witness :
    dbcolumn_extend (["a"] : List String) 3 = .ok ["a", "a", "a"] := by
  have h := (dbcolumn_extend_spec (["a"] : List String) 3).1 (by decide)
  exact h.1

/-! ### Theorems about row acceptance (`DBBlock.lookup`) -/

theorem lookup_step_seen {α : Type} [DecidableEq α] (cd eu : Bool)
    (st : LookupState α) (r : List (Option α)) :
    (lookup_step cd eu st r).seen =
      if rowHasNone r then st.seen else st.seen ++ [r] := by
  unfold lookup_step
  by_cases h : rowHasNone r
  · simp [h]
  · simp only [h, Bool.false_eq_true, if_false]
    split
    · split <;> rfl
    · rfl

theorem lookup_foldl_seen {α : Type} [DecidableEq α] (cd eu : Bool) :
    ∀ (rows : List (List (Option α))) (st : LookupState α),
      (rows.foldl (lookup_step cd eu) st).seen = st.seen ++ noneFree rows := by
  intro rows
  induction rows with
  | nil => intro st; simp [noneFree]
  | cons r rows ih =>
    intro st
    rw [List.foldl_cons, ih]
    by_cases h : rowHasNone r
    · simp [lookup_step_seen, h, noneFree]
    · simp [lookup_step_seen, h, noneFree]

theorem lookup_step_data_keep {α : Type} [DecidableEq α] (cd : Bool)
    (st : LookupState α) (r : List (Option α)) :
    (lookup_step cd false st r).data =
      st.data ++ (if rowHasNone r then [] else [r]) := by
  unfold lookup_step
  by_cases h : rowHasNone r
  · simp [h]
  · simp only [h, Bool.false_eq_true, if_false]
    split
    · simp
    · simp

theorem lookup_foldl_data_keep {α : Type} [DecidableEq α] (cd : Bool) :
    ∀ (rows : List (List (Option α))) (st : LookupState α),
      (rows.foldl (lookup_step cd false) st).data = st.data ++ noneFree rows := by
  intro rows
  induction rows with
  | nil => intro st; simp [noneFree]
  | cons r rows ih =>
    intro st
    rw [List.foldl_cons, ih, lookup_step_data_keep]
    by_cases h : rowHasNone r
    · simp [noneFree, h]
    · simp [noneFree, h]

theorem lookup_dup_iff_mem_seen {α : Type} [DecidableEq α]
    (st : LookupState α) (r : List (Option α)) :
    (st.seen ++ [r]).count r > 1 ↔ r ∈ st.seen := by
  rw [List.count_append, List.count_singleton_self]
  constructor
  · intro h
    exact List.count_pos_iff.mp (by omega)
  · intro h
    have := List.count_pos_iff.mpr h
    omega

theorem lookup_foldl_data_unique {α : Type} [DecidableEq α] (cd : Bool) :
    ∀ (rows : List (List (Option α))) (st : LookupState α),
      (∀ x, x ∈ st.data ↔ x ∈ st.seen) →
      (rows.foldl (lookup_step cd true) st).data =
        (noneFree rows).foldl dedupStep st.data := by
  intro rows
  induction rows with
  | nil => intro st _; simp [noneFree]
  | cons r rows ih =>
    intro st hinv
    rw [List.foldl_cons]
    by_cases h : rowHasNone r
    · have hstep : lookup_step cd true st r = st := by
        unfold lookup_step
        simp [h]
      rw [hstep]
      have hnf : noneFree (r :: rows) = noneFree rows := by simp [noneFree, h]
      rw [hnf]
      exact ih st hinv
    · have hnf : noneFree (r :: rows) = r :: noneFree rows := by simp [noneFree, h]
      rw [hnf, List.foldl_cons]
      by_cases hmem : r ∈ st.seen
      · have hdup : (st.seen ++ [r]).count r > 1 := (lookup_dup_iff_mem_seen st r).mpr hmem
        have hstep : lookup_step cd true st r =
            ⟨st.seen ++ [r], st.nbrows, st.data,
              if cd then st.warns ++ [r] else st.warns⟩ := by
          unfold lookup_step
          simp [h, hdup, hmem]
        rw [hstep]
        have hmem' : r ∈ st.data := (hinv r).mpr hmem
        have hds : dedupStep st.data r = st.data := by
          unfold dedupStep
          rw [if_pos hmem']
        rw [hds]
        apply ih
        intro x
        simp only
        rw [hinv x]
        constructor
        · intro hx; simp [hx]
        · intro hx
          rcases List.mem_append.mp hx with hx | hx
          · exact hx
          · simp at hx; subst hx; exact hmem
      · have hdup : ¬ (st.seen ++ [r]).count r > 1 := by
          rw [lookup_dup_iff_mem_seen]; exact hmem
        have hstep : lookup_step cd true st r =
            ⟨st.seen ++ [r], st.nbrows + 1, st.data ++ [r], st.warns⟩ := by
          unfold lookup_step
          simp [h, hdup, hmem]
        rw [hstep]
        have hmem' : ¬ r ∈ st.data := fun hx => hmem ((hinv r).mp hx)
        have hds : dedupStep st.data r = st.data ++ [r] := by
          unfold dedupStep
          rw [if_neg hmem']
        rw [hds]
        apply ih
        intro x
        simp only [List.mem_append, List.mem_singleton]
        rw [hinv x]

theorem lookup_foldl_warns {α : Type} [DecidableEq α] (eu : Bool) :
    ∀ (rows : List (List (Option α))) (st : LookupState α) (r : List (Option α)),
      (2 ≤ (noneFree rows).count r ∨
        (1 ≤ (noneFree rows).count r ∧ r ∈ st.seen) ∨ r ∈ st.warns) →
      r ∈ (rows.foldl (lookup_step true eu) st).warns := by
  intro rows
  induction rows with
  | nil =>
    intro st r h
    rcases h with h | h | h
    · simp [noneFree] at h
    · simp [noneFree] at h
    · simpa using h
  | cons r0 rows ih =>
    intro st r h
    rw [List.foldl_cons]
    by_cases h0 : rowHasNone r0
    · have hstep : lookup_step true eu st r0 = st := by
        unfold lookup_step
        simp [h0]
      have hnf : noneFree (r0 :: rows) = noneFree rows := by simp [noneFree, h0]
      rw [hstep]
      exact ih st r (by rwa [hnf] at h)
    · have hnf : noneFree (r0 :: rows) = r0 :: noneFree rows := by simp [noneFree, h0]
      rw [hnf] at h
      have hseen : (lookup_step true eu st r0).seen = st.seen ++ [r0] := by
        rw [lookup_step_seen]
        simp [h0]
      by_cases hmem : r0 ∈ st.seen
      · have hdup : (st.seen ++ [r0]).count r0 > 1 := (lookup_dup_iff_mem_seen st r0).mpr hmem
        have hwarns : (lookup_step true eu st r0).warns = st.warns ++ [r0] := by
          unfold lookup_step
          by_cases heu : eu <;> simp [h0, hdup, hmem, heu]
        apply ih
        rcases h with h | h | h
        · by_cases hr : r = r0
          · subst hr
            right; right
            rw [hwarns]; simp
          · left
            rwa [List.count_cons_of_ne hr] at h

        · by_cases hr : r = r0
          · subst hr
            right; right
            rw [hwarns]; simp
          · right; left
            refine ⟨?_, ?_⟩
            · have h1 := h.1
              rwa [List.count_cons_of_ne hr] at h1
            · rw [hseen]; exact List.mem_append_left _ h.2
        · right; right
          rw [hwarns]
          exact List.mem_append_left _ h
      · have hdup : ¬ (st.seen ++ [r0]).count r0 > 1 := by
          rw [lookup_dup_iff_mem_seen]; exact hmem
        have hwarns : (lookup_step true eu st r0).warns = st.warns := by
          unfold lookup_step
          simp [h0, hdup, hmem]
        apply ih
        rcases h with h | h | h
        · by_cases hr : r = r0
          · subst hr
            rw [List.count_cons_self] at h
            right; left
            refine ⟨by omega, ?_⟩
            rw [hseen]; simp
          · left
            rwa [List.count_cons_of_ne hr] at h
        · by_cases hr : r = r0
          · subst hr
            exact absurd h.2 hmem
          · right; left
            refine ⟨?_, ?_⟩
            · have h1 := h.1
              rwa [List.count_cons_of_ne hr] at h1
            · rw [hseen]; exact List.mem_append_left _ h.2
        · right; right
          rw [hwarns]; exact h

/-- The concrete resolved row `(1, "a")` of the spec's dedup scenario. -/
def pyRow : List (Option PyVal) := [some (.vint 1), some (.vstr "a")]

/-- C5.  Row acceptance in `DBBlock.lookup`: an occurrence count per
distinct none-free row is maintained (`seen` is the multiset backing the
`unique` dict); with `check_duplicates` a warning is logged when a row
first repeats while ALL rows are kept; with `enforce_unique` repeated rows
are silently skipped (first occurrences survive, in order).  In
particular, two identical resolved rows `(1, "a")` under `enforce_unique`
yield exactly one output row, and under `check_duplicates` alone yield
two rows plus one warning. -/
theorem dbblock_lookup_row_acceptance :
    (∀ (α : Type) (inst : DecidableEq α) (cd eu : Bool)
        (rows : List (List (Option α))),
      (dbblock_lookup_rows cd eu rows).seen = noneFree rows) ∧
    (∀ (α : Type) (inst : DecidableEq α) (cd : Bool)
        (rows : List (List (Option α))),
      (dbblock_lookup_rows cd false rows).data = noneFree rows) ∧
    (∀ (α : Type) (inst : DecidableEq α) (cd : Bool)
        (rows : List (List (Option α))),
      (dbblock_lookup_rows cd true rows).data = firstDedup (noneFree rows)) ∧
    (∀ (α : Type) (inst : DecidableEq α) (eu : Bool)
        (rows : List (List (Option α))) (r : List (Option α)),
      2 ≤ (noneFree rows).count r →
      r ∈ (dbblock_lookup_rows true eu rows).warns) ∧
    ((dbblock_lookup_rows false true [pyRow, pyRow]).data = [pyRow] ∧
      (dbblock_lookup_rows true false [pyRow, pyRow]).data = [pyRow, pyRow] ∧
      (dbblock_lookup_rows true false [pyRow, pyRow]).warns.length = 1) := by
  refine ⟨?_, ?_, ?_, ?_, ?_, ?_, ?_⟩
  · intro α inst cd eu rows
    unfold dbblock_lookup_rows
    rw [lookup_foldl_seen]
    rfl
  · intro α inst cd rows
    unfold dbblock_lookup_rows
    rw [lookup_foldl_data_keep]
    rfl
  · intro α inst cd rows
    unfold dbblock_lookup_rows
    rw [lookup_foldl_data_unique cd rows _ (by intro x; simp)]
    rfl
  · intro α inst eu rows r h
    unfold dbblock_lookup_rows
    exact lookup_foldl_warns eu rows _ r (Or.inl h)
  · rfl
  · rfl
  · rfl

/-- C5, witness: the dedup scenario instantiated through the theorem. -/
theorem dbblock_lookup_row_acceptance_witness :
    2 ≤ (noneFree [pyRow, pyRow]).count pyRow ∧
    pyRow ∈ (dbblock_lookup_rows true false [pyRow, pyRow]).warns :=
  ⟨by decide,
    dbblock_lookup_row_acceptance.2.2.2.1 PyVal inferInstance false
      [pyRow, pyRow] pyRow (by decide)⟩

/-! ### Theorems about content-bounded cell resolution -/

theorem scanRowFuel_eq (g : Sheet) (col : Nat) (content : String)
    (hcol : col < g.ncols) :
    ∀ (fuel r0 : Nat), fuel = g.nrows + 1 - r0 → r0 ≤ g.nrows →
      scanRowFuel g col content fuel r0 =
        match findRowSpec g col content r0 with
        | some r => .ok (col, r)
        | none => .error error_row_index_msg := by
  intro fuel
  induction fuel with
  | zero =>
    intro r0 hf hr
    omega
  | succ fuel ih =>
    intro r0 hf hr
    have hrange : g.nrows + 1 - r0 = fuel + 1 := hf.symm
    rw [scanRowFuel, findRowSpec, hrange, List.range'_succ]
    by_cases hv : g.val col r0 = content
    · rw [if_pos hv, List.find?_cons_of_pos _ (by simpa using hv)]
    · rw [if_neg hv, if_neg (by omega), List.find?_cons_of_neg _ (by simpa using hv)]
      by_cases hb : r0 + 1 > g.nrows
      · rw [if_pos hb]
        have hfz : fuel = 0 := by omega
        subst hfz
        rfl
      · rw [if_neg hb, ih (r0 + 1) (by omega) (by omega)]
        have hf2 : g.nrows + 1 - (r0 + 1) = fuel := by omega
        rw [findRowSpec, hf2]

theorem scanColFuel_eq (g : Sheet) (row : Nat) (content : String) :
    ∀ (fuel c0 : Nat), fuel = g.ncols - c0 → c0 < g.ncols →
      scanColFuel g row content fuel c0 =
        match findColSpec g row content c0 with
        | some c => .ok (c, row)
        | none => .error error_column_index_msg := by
  intro fuel
  induction fuel with
  | zero =>
    intro c0 hf hc
    omega
  | succ fuel ih =>
    intro c0 hf hc
    have hrange : g.ncols - c0 = fuel + 1 := hf.symm
    rw [scanColFuel, findColSpec, hrange, List.range'_succ]
    by_cases hv : g.val c0 row = content
    · rw [if_pos hv, List.find?_cons_of_pos _ (by simpa using hv)]
    · rw [if_neg hv, List.find?_cons_of_neg _ (by simpa using hv)]
      by_cases hb : c0 + 1 ≥ g.ncols
      · rw [if_pos hb]
        have hfz : fuel = 0 := by omega
        subst hfz
        rfl
      · rw [if_neg hb, ih (c0 + 1) (by omega) (by omega)]
        have hf2 : g.ncols - (c0 + 1) = fuel := by omega
        rw [findColSpec, hf2]

theorem scanRowFuel_ok_ge (g : Sheet) (col : Nat) (content : String) :
    ∀ (fuel r0 c r : Nat), scanRowFuel g col content fuel r0 = .ok (c, r) →
      c = col ∧ r0 ≤ r := by
  intro fuel
  induction fuel with
  | zero =>
    intro r0 c r h
    exact absurd h (by simp [scanRowFuel])
  | succ fuel ih =>
    intro r0 c r h
    rw [scanRowFuel] at h
    by_cases hv : g.val col r0 = content
    · rw [if_pos hv] at h
      obtain ⟨hc, hr⟩ : col = c ∧ r0 = r := by
        simpa using h
      exact ⟨hc.symm, by omega⟩
    · rw [if_neg hv] at h
      by_cases h1 : col ≥ g.ncols
      · rw [if_pos h1] at h
        exact absurd h (by simp)
      · rw [if_neg h1] at h
        by_cases h2 : r0 + 1 > g.nrows
        · rw [if_pos h2] at h
          exact absurd h (by simp)
        · rw [if_neg h2] at h
          obtain ⟨hc, hr⟩ := ih (r0 + 1) c r h
          exact ⟨hc, by omega⟩

theorem scanColFuel_ok_ge (g : Sheet) (row : Nat) (content : String) :
    ∀ (fuel c0 c r : Nat), scanColFuel g row content fuel c0 = .ok (c, r) →
      r = row ∧ c0 ≤ c := by
  intro fuel
  induction fuel with
  | zero =>
    intro c0 c r h
    exact absurd h (by simp [scanColFuel])
  | succ fuel ih =>
    intro c0 c r h
    rw [scanColFuel] at h
    by_cases hv : g.val c0 row = content
    · rw [if_pos hv] at h
      obtain ⟨hc, hr⟩ : c0 = c ∧ row = r := by
        simpa using h
      exact ⟨hr.symm, by omega⟩
    · rw [if_neg hv] at h
      by_cases h1 : c0 + 1 ≥ g.ncols
      · rw [if_pos h1] at h
        exact absurd h (by simp)
      · rw [if_neg h1] at h
        obtain ⟨hc, hr⟩ := ih (c0 + 1) c r h
        exact ⟨hc, by omega⟩

/-- C8.  Content-bounded cell resolution.  (1) A `COL[expr]` descriptor
whose column is within the sheet scans one row at a time from the base
row (or row 1), comparing each visited cell's textual value with `expr`,
and returns the FIRST matching row — or raises the row index error when
the sheet's row bound is exceeded before a match; a column outside the
sheet raises the column index error at once.  (2) Symmetrically,
`[expr]ROW` scans one column at a time from the base column (or column
A).  (3) `DBRange.get_range` resolves the end reference with the start's
RESOLVED address as base, so a content-bounded end (with zero offsets) is
found at or after the start in the scanned dimension. -/
theorem dbcell_content_resolution :
    (∀ (g : Sheet) (col : Nat) (content : String) (base : Option (Nat × Nat)),
      col < g.ncols →
      dbcell_traverse g (.colContent col content) base =
        match findRowSpec g col content (baseRow base) with
        | some r => .ok (col, r)
        | none => .error error_row_index_msg) ∧
    (∀ (g : Sheet) (col : Nat) (content : String) (base : Option (Nat × Nat)),
      col ≥ g.ncols →
      dbcell_traverse g (.colContent col content) base = .error error_column_index_msg) ∧
    (∀ (g : Sheet) (row : Nat) (content : String) (base : Option (Nat × Nat)),
      baseCol base < g.ncols → row ≤ g.nrows →
      dbcell_traverse g (.contentRow content row) base =
        match findColSpec g row content (baseCol base) with
        | some c => .ok (c, row)
        | none => .error error_column_index_msg) ∧
    (∀ (g : Sheet) (row : Nat) (content : String) (base : Option (Nat × Nat)),
      baseCol base < g.ncols → row > g.nrows →
      dbcell_traverse g (.contentRow content row) base = .error error_row_index_msg) ∧
    (∀ (g : Sheet) (s e : DBCellRef) (st en : Nat × Nat) (col : Nat) (content : String),
      dbrange_get_range g s e = .ok (st, en) →
      e = ⟨.colContent col content, 0, 0⟩ → st.2 ≤ en.2) ∧
    (∀ (g : Sheet) (s e : DBCellRef) (st en : Nat × Nat) (row : Nat) (content : String),
      dbrange_get_range g s e = .ok (st, en) →
      e = ⟨.contentRow content row, 0, 0⟩ → st.1 ≤ en.1) := by
  have htravA : ∀ (g : Sheet) (col : Nat) (content : String) (base : Option (Nat × Nat)),
      col < g.ncols →
      dbcell_traverse g (.colContent col content) base =
        match findRowSpec g col content (baseRow base) with
        | some r => .ok (col, r)
        | none => .error error_row_index_msg := by
    intro g col content base hcol
    rw [dbcell_traverse, if_neg (by omega)]
    by_cases hr0 : baseRow base > g.nrows
    · rw [if_pos hr0]
      have hz : g.nrows + 1 - baseRow base = 0 := by omega
      rw [findRowSpec, hz]
      rfl
    · rw [if_neg hr0]
      exact scanRowFuel_eq g col content hcol _ _ rfl (by omega)
  have htravC : ∀ (g : Sheet) (row : Nat) (content : String) (base : Option (Nat × Nat)),
      baseCol base < g.ncols → row ≤ g.nrows →
      dbcell_traverse g (.contentRow content row) base =
        match findColSpec g row content (baseCol base) with
        | some c => .ok (c, row)
        | none => .error error_column_index_msg := by
    intro g row content base hc0 hrow
    rw [dbcell_traverse, if_neg (by omega), if_neg (by omega)]
    exact scanColFuel_eq g row content _ _ rfl hc0
  refine ⟨htravA, ?_, htravC, ?_, ?_, ?_⟩
  · intro g col content base hcol
    rw [dbcell_traverse, if_pos (by omega)]
  · intro g row content base hc0 hrow
    rw [dbcell_traverse, if_neg (by omega), if_pos (by omega)]
  · intro g s e st en col content hok he
    subst he
    unfold dbrange_get_range at hok
    cases hs : dbcell_execute g s none with
    | error msg => rw [hs] at hok; exact absurd hok (by simp [Bind.bind, Except.bind])
    | ok a =>
      rw [hs] at hok
      simp only [Bind.bind, Except.bind] at hok
      cases he2 : dbcell_execute g ⟨.colContent col content, 0, 0⟩ (some a) with
      | error msg => rw [he2] at hok; exact absurd hok (by simp)
      | ok b =>
        rw [he2] at hok
        simp only [pure, Except.pure, Except.ok.injEq, Prod.mk.injEq] at hok
        obtain ⟨hsta, henb⟩ := hok
        subst hsta
        subst henb
        unfold dbcell_execute at he2
        simp only [Bind.bind, Except.bind] at he2
        cases ht : dbcell_traverse g (DBDescriptor.colContent col content) (some a) with
        | error msg => rw [ht] at he2; exact absurd he2 (by simp)
        | ok cell =>
          rw [ht] at he2
          simp only [] at he2
          unfold py_add_columns at he2
          rw [if_neg (by omega)] at he2
          simp only [] at he2
          unfold py_add_rows at he2
          simp only [] at he2
          by_cases hrowpos : ((cell.2 : Int) + 0 < 1)
          · rw [if_pos hrowpos] at he2
            exact absurd he2 (by simp)
          · rw [if_neg hrowpos] at he2
            simp only [Except.ok.injEq] at he2
            rw [dbcell_traverse] at ht
            by_cases hcol : col ≥ g.ncols
            · rw [if_pos hcol] at ht
              exact absurd ht (by simp)
            · rw [if_neg hcol] at ht
              by_cases hbr : baseRow (some a) > g.nrows
              · rw [if_pos hbr] at ht
                exact absurd ht (by simp)
              · rw [if_neg hbr] at ht
                obtain ⟨hc, hr⟩ :=
                  scanRowFuel_ok_ge g col content _ _ cell.1 cell.2 (by
                    simpa using ht)
                have hb2 : b.2 = cell.2 := by
                  rw [← he2]
                  simp
                rw [hb2]
                simpa [baseRow] using hr
  · intro g s e st en row content hok he
    subst he
    unfold dbrange_get_range at hok
    cases hs : dbcell_execute g s none with
    | error msg => rw [hs] at hok; exact absurd hok (by simp [Bind.bind, Except.bind])
    | ok a =>
      rw [hs] at hok
      simp only [Bind.bind, Except.bind] at hok
      cases he2 : dbcell_execute g ⟨.contentRow content row, 0, 0⟩ (some a) with
      | error msg => rw [he2] at hok; exact absurd hok (by simp)
      | ok b =>
        rw [he2] at hok
        simp only [pure, Except.pure, Except.ok.injEq, Prod.mk.injEq] at hok
        obtain ⟨hsta, henb⟩ := hok
        subst hsta
        subst henb
        unfold dbcell_execute at he2
        simp only [Bind.bind, Except.bind] at he2
        cases ht : dbcell_traverse g (DBDescriptor.contentRow content row) (some a) with
        | error msg => rw [ht] at he2; exact absurd he2 (by simp)
        | ok cell =>
          rw [ht] at he2
          simp only [] at he2
          unfold py_add_columns at he2
          rw [if_neg (by omega)] at he2
          simp only [] at he2
          unfold py_add_rows at he2
          simp only [] at he2
          by_cases hrowpos : ((cell.2 : Int) + 0 < 1)
          · rw [if_pos hrowpos] at he2
            exact absurd he2 (by simp)
          · rw [if_neg hrowpos] at he2
            simp only [Except.ok.injEq] at he2
            rw [dbcell_traverse] at ht
            by_cases hc0 : baseCol (some a) ≥ g.ncols
            · rw [if_pos hc0] at ht
              exact absurd ht (by simp)
            · rw [if_neg hc0] at ht
              by_cases hbr : row > g.nrows
              · rw [if_pos hbr] at ht
                exact absurd ht (by simp)
              · rw [if_neg hbr] at ht
                obtain ⟨hc, hr⟩ :=
                  scanColFuel_ok_ge g row content _ _ cell.1 cell.2 (by
                    simpa using ht)
                have hb1 : b.1 = cell.1 := by
                  rw [← he2]
                  simp
                rw [hb1]
                simpa [baseCol] using hr

/-- A concrete sheet for exercising C8: 2 columns, 3 rows, with "x"
stored at column A (index 0), row 2, and empty cells elsewhere. -/
def sheetEx : Sheet :=
  ⟨2, 3, fun c r => if c = 0 ∧ r = 2 then "x" else ""⟩

/-- C8, witness: `A[x]` from no base resolves to A2 (the first matching
row); `[ ]1`-style scanning from no base resolves to A1; and a range with
explicit start A2 and content-bounded end `A[x]` resolves its end at or
after the start. -/
theorem dbcell_content_resolution_witness :
    dbcell_traverse sheetEx (.colContent 0 "x") none = .ok (0, 2) ∧
    dbcell_traverse sheetEx (.contentRow "" 1) none = .ok (0, 1) ∧
    dbrange_get_range sheetEx ⟨.explicitCell 0 2, 0, 0⟩ ⟨.colContent 0 "x", 0, 0⟩ =
      .ok ((0, 2), (0, 2)) ∧
    (2 : Nat) ≤ 2 := by
  refine ⟨?_, ?_, by rfl, ?_⟩
  · have h := dbcell_content_resolution.1 sheetEx 0 "x" none (by decide)
    rw [h]
    rfl
  · have h := dbcell_content_resolution.2.2.1 sheetEx 1 "" none (by decide) (by decide)
    rw [h]
    rfl
  · exact dbcell_content_resolution.2.2.2.2.1 sheetEx ⟨.explicitCell 0 2, 0, 0⟩
      ⟨.colContent 0 "x", 0, 0⟩ (0, 2) (0, 2) 0 "x" (by rfl) rfl

end Spsbot
